import Mathlib

/-!
Verification of the retrieval-augmented answering pipeline specification
against the repository sources.

The repository sources under the frontend directory (ChatWidget, api.ts,
ChatMessage) are embedded directly from the code.  The backend pipeline
components (Content Segmenter, Retrieval Orchestrator, Scope Classifier,
Citation Mapper, Session handling) are not present in the sources; they are
modelled from the specification, and each such definition is marked
`Modelled from the spec:` in its doc comment.
-/

namespace Rag

/-! ## Content Segmenter (spec §4.1) -/

/-- Modelled from the spec: sentence terminator characters used by the
boundary detection of §4.1 (the segmenter implementation is absent from the
sources; only the spec describes it). -/
def isTerminator (c : Char) : Bool :=
  c = '.' || c = '!' || c = '?'

/-- Modelled from the spec: split a text (as a list of characters) into
sentences, cutting after each terminator character; a trailing fragment
without a terminator is kept as a final sentence.  `acc` holds the current
sentence in reverse. -/
def splitSentencesAux (acc : List Char) : List Char → List (List Char)
  | [] => if acc.isEmpty then [] else [acc.reverse]
  | c :: rest =>
    if isTerminator c then (acc.reverse ++ [c]) :: splitSentencesAux [] rest
    else splitSentencesAux (c :: acc) rest

/-- Modelled from the spec: sentence segmentation of a document. -/
def splitSentences (doc : List Char) : List (List Char) :=
  splitSentencesAux [] doc

/-- Modelled from the spec: total character length of a group of sentences. -/
def sentencesLen (g : List (List Char)) : Nat :=
  (g.map List.length).sum

/-- Modelled from the spec: accumulate sentences into the current chunk until
adding the next sentence would exceed the target size `T`; then close the
chunk.  A single sentence longer than `T` is emitted as its own oversized
chunk rather than split (§4.1).  The optional overlap `O` is not configured
here. -/
def chunkLoop (T : Nat) (cur : List (List Char)) : List (List Char) → List (List (List Char))
  | [] => if cur.isEmpty then [] else [cur]
  | s :: rest =>
    if cur.isEmpty then chunkLoop T [s] rest
    else if sentencesLen cur + s.length ≤ T then chunkLoop T (cur ++ [s]) rest
    else cur :: chunkLoop T [s] rest

/-- Modelled from the spec: group the sentences of a document into chunks. -/
def chunkSentences (T : Nat) (ss : List (List Char)) : List (List (List Char)) :=
  chunkLoop T [] ss

/-- Modelled from the spec: chunk record of §3 as produced by the Content
Segmenter (before embedding vectors are attached). -/
structure Chunk where
  id : String
  source_id : String
  section_id : String
  language : String
  ordinal : Nat
  text : List Char
  char_start : Nat
  char_end : Nat
deriving DecidableEq

/-- Modelled from the spec: attach ordinals and character ranges to the chunk
texts, in emission order. -/
def attachMeta (sid sec lang : String) : Nat → Nat → List (List Char) → List Chunk
  | _, _, [] => []
  | ord, pos, t :: ts =>
    { id := sid ++ ":" ++ sec ++ ":" ++ Nat.repr ord,
      source_id := sid, section_id := sec, language := lang, ordinal := ord,
      text := t, char_start := pos, char_end := pos + t.length } ::
      attachMeta sid sec lang (ord + 1) (pos + t.length) ts

/-- Modelled from the spec: the chunk texts produced for a document. -/
def segmentTexts (T : Nat) (doc : List Char) : List (List Char) :=
  (chunkSentences T (splitSentences doc)).map List.flatten

/-- Modelled from the spec: the error raised on malformed ingestion input
(§7); non-text input is not representable in this embedding, so only the
empty-input case exists. -/
inductive ContentError where
  | emptyInput
deriving DecidableEq

/-- Modelled from the spec: the Content Segmenter §4.1.  Empty input fails
with `ContentError`; any non-empty text yields a chunk sequence. -/
def segmentDocument (sid sec lang : String) (T : Nat) (doc : List Char) :
    Except ContentError (List Chunk) :=
  if doc.isEmpty then .error .emptyInput
  else .ok (attachMeta sid sec lang 0 0 (segmentTexts T doc))

/-! ## Ingestion state (spec §3, §6) -/

/-- Modelled from the spec: ingestion state keyed by `source_id`. -/
def IngestState : Type := List (String × List Chunk)

/-- Modelled from the spec: `ingest` segments the document and replaces all
prior chunks of the same `source_id` (§3: no stale leftovers); a document
failing with `ContentError` is skipped (§7). -/
def ingest (st : IngestState) (sid sec lang : String) (T : Nat) (doc : List Char) :
    IngestState :=
  match segmentDocument sid sec lang T doc with
  | .error _ => st
  | .ok cs => (sid, cs) :: List.filter (fun p => decide (p.1 ≠ sid)) st

/-- Modelled from the spec: the chunks currently stored for a `source_id`. -/
def chunksOf (st : IngestState) (sid : String) : List Chunk :=
  match List.find? (fun p => decide (p.1 = sid)) st with
  | some p => p.2
  | none => []

/-! ## Retrieval Orchestrator (spec §4.4) -/

/-- Modelled from the spec: a search hit as returned by the Vector Index,
carrying the chunk metadata needed for §4.4 ranking.  The relevance score is
modelled as an integer. -/
structure Hit where
  source_id : String
  section_id : String
  ordinal : Nat
  score : Int
deriving DecidableEq

/-- Modelled from the spec: the deduplication key of §4.4. -/
def hitKey (h : Hit) : String × String :=
  (h.source_id, h.section_id)

/-- Modelled from the spec: the ranking order of §4.4 — higher score first;
ties broken by lower `ordinal`, then lexicographically lower `source_id`. -/
def rankLe (a b : Hit) : Prop :=
  b.score < a.score ∨
    (a.score = b.score ∧
      (a.ordinal < b.ordinal ∨ (a.ordinal = b.ordinal ∧ a.source_id ≤ b.source_id)))

instance : DecidableRel rankLe := fun a b => by
  unfold rankLe
  infer_instance

instance : IsTotal Hit rankLe where
  total a b := by
    unfold rankLe
    rcases lt_trichotomy a.score b.score with h | h | h
    · exact Or.inr (Or.inl h)
    · rcases Nat.lt_trichotomy a.ordinal b.ordinal with h2 | h2 | h2
      · exact Or.inl (Or.inr ⟨h, Or.inl h2⟩)
      · rcases le_total a.source_id b.source_id with h3 | h3
        · exact Or.inl (Or.inr ⟨h, Or.inr ⟨h2, h3⟩⟩)
        · exact Or.inr (Or.inr ⟨h.symm, Or.inr ⟨h2.symm, h3⟩⟩)
      · exact Or.inr (Or.inr ⟨h.symm, Or.inl h2⟩)
    · exact Or.inl (Or.inl h)

instance : IsTrans Hit rankLe where
  trans a b c hab hbc := by
    unfold rankLe at *
    rcases hab with h1 | ⟨h1, t1⟩
    · rcases hbc with h2 | ⟨h2, _⟩
      · exact Or.inl (h2.trans h1)
      · exact Or.inl (h2 ▸ h1)
    · rcases hbc with h2 | ⟨h2, t2⟩
      · exact Or.inl (h1 ▸ h2)
      · refine Or.inr ⟨h1.trans h2, ?_⟩
        rcases t1 with o1 | ⟨o1, s1⟩
        · rcases t2 with o2 | ⟨o2, _⟩
          · exact Or.inl (o1.trans o2)
          · exact Or.inl (o2 ▸ o1)
        · rcases t2 with o2 | ⟨o2, s2⟩
          · exact Or.inl (o1 ▸ o2)
          · exact Or.inr ⟨o1.trans o2, s1.trans s2⟩

/-- Modelled from the spec: strict preference used when deduplicating — the
candidate that ranks strictly higher under §4.4 replaces the held one. -/
def rankLtB (a b : Hit) : Bool :=
  decide (b.score < a.score) ||
    (decide (a.score = b.score) &&
      (decide (a.ordinal < b.ordinal) ||
        (decide (a.ordinal = b.ordinal) && decide (a.source_id < b.source_id))))

/-- Modelled from the spec: pick the best-ranked hit of a non-empty pool. -/
def pickBest (h : Hit) (hs : List Hit) : Hit :=
  hs.foldl (fun acc x => if rankLtB x acc then x else acc) h

/-- Modelled from the spec: the best hit for a deduplication key, `none` when
no hit has that key. -/
def bestForKey (hits : List Hit) (k : String × String) : Option Hit :=
  match List.filter (fun h => decide (hitKey h = k)) hits with
  | [] => none
  | h :: hs => some (pickBest h hs)

/-- Modelled from the spec: deduplicate hits that fall within the same
`(source_id, section_id)`, keeping only the highest-scoring one (§4.4). -/
def dedupeHits (hits : List Hit) : List Hit :=
  ((hits.map hitKey).dedup).filterMap (bestForKey hits)

/-- Modelled from the spec: the Retrieval Orchestrator ranking of §4.4 —
deduplicate, order deterministically, truncate to `k`. -/
def orchestrate (k : Nat) (hits : List Hit) : List Hit :=
  (List.insertionSort rankLe (dedupeHits hits)).take k

/-! ## Citation Mapper and scope gating (spec §4.5–§4.7, §6) -/

/-- Modelled from the spec: a retrieved candidate chunk with its relevance
score, as handed from the Retrieval Orchestrator to downstream components. -/
structure Candidate where
  chunk : Chunk
  score : Int
deriving DecidableEq

/-- Modelled from the spec: the user-facing citation record of §3, populated
by the Citation Mapper. -/
structure Citation where
  source_id : String
  section_id : String
  snippet : List Char
  relevance_score : Int
deriving DecidableEq

/-- Modelled from the spec: length bound used when extracting the verbatim
snippet from a chunk's text. -/
def snippetLen : Nat := 200

/-- Modelled from the spec: the Citation Mapper §4.7 — for each used id, emit
a citation populated from the matching candidate's chunk; any id not present
in the candidate set is dropped silently, never fabricated. -/
def mapCitations (cands : List Candidate) (used : List String) : List Citation :=
  used.filterMap (fun i =>
    match List.find? (fun c => decide (c.chunk.id = i)) cands with
    | some c => some { source_id := c.chunk.source_id, section_id := c.chunk.section_id,
                       snippet := c.chunk.text.take snippetLen,
                       relevance_score := c.score }
    | none => none)

/-- Modelled from the spec: the synthesizer output contract of §4.6. -/
structure SynthResult where
  answer_text : String
  used_chunk_ids : List String

/-- Modelled from the spec: the fixed acknowledgment-of-limitation template
returned for out-of-scope queries (§4.6, §7). -/
def acknowledgmentTemplate : String :=
  "I could not find relevant content in the textbook to answer this question."

/-- Modelled from the spec: top relevance score of a ranked candidate set. -/
def topScore : List Candidate → Int
  | [] => 0
  | c :: _ => c.score

/-- Modelled from the spec: the Scope Classifier §4.5 — out of scope iff the
candidate set is empty or the top relevance score is below the threshold. -/
def outOfScope (tScope : Int) : List Candidate → Bool
  | [] => true
  | c :: _ => decide (c.score < tScope)

/-- Modelled from the spec: the query-entry-point response record of §6. -/
structure RagResponse where
  answer : String
  citations : List Citation
  is_out_of_scope : Bool
  confidence : Int
  session_id : String
deriving DecidableEq

/-- Modelled from the spec: the query-time pipeline downstream of retrieval
(§4.5–§4.7, §6).  The external generation capability is abstracted as the
function parameter `synth`; when the Scope Classifier signals out of scope the
synthesizer is bypassed and the fixed template is returned. -/
def answerQuery (synth : List Candidate → SynthResult) (tScope : Int)
    (sessionId : String) (cands : List Candidate) : RagResponse :=
  if outOfScope tScope cands then
    { answer := acknowledgmentTemplate, citations := [], is_out_of_scope := true,
      confidence := topScore cands, session_id := sessionId }
  else
    let r := synth cands
    { answer := r.answer_text, citations := mapCitations cands r.used_chunk_ids,
      is_out_of_scope := false, confidence := topScore cands, session_id := sessionId }

/-! ## Frontend: the wire shape of a citation
(src/frontend ChatMessage component, exported `Citation` interface) -/

/-- From the code: the field names of the `Citation` interface exported by the
frontend ChatMessage component and consumed by the ChatWidget
(`handleCitationClick` reads `citation.chapter_id` and `citation.section_id`). -/
def citationFields : List String :=
  ["chapter_id", "chapter_title", "section_id", "section_title", "text",
   "relevance_score"]

/-- The field names the specification (§3, §6) claims for a citation record. -/
def specCitationFields : List String :=
  ["source_id", "section_id", "snippet", "relevance_score"]

/-! ## Frontend HTTP client (src/frontend/src/services/api.ts) -/

/-- From the code: `API_TIMEOUT = 5000` milliseconds in api.ts. -/
def API_TIMEOUT : Nat := 5000

/-- From the code: the default `TimeoutError` message in api.ts. -/
def timeoutDefaultMsg : String := "Request timed out - backend may be unavailable"

/-- From the code: the `TimeoutError` message used for non-abort fetch
rejections in api.ts. -/
def networkErrMsg : String := "Network error - backend may be unavailable"

/-- From the code: the observable outcome of one `fetch` call as apiRequest
distinguishes them — a response, an `AbortError` (the timeout fired), or any
other rejection. -/
inductive FetchOutcome where
  | success (status : Nat) (statusText : String) (jsonDetail : Option String)
  | abortError
  | networkError
deriving DecidableEq

/-- From the code: the typed failures thrown by apiRequest — `TimeoutError`
or `ApiError (status, statusText, message)`. -/
inductive ApiFailure where
  | timeoutErr (message : String)
  | apiErr (status : Nat) (statusText : String) (message : String)
deriving DecidableEq

/-- From the code: `response.ok` — status in the 2xx range. -/
def respOk (status : Nat) : Bool :=
  decide (200 ≤ status ∧ status < 300)

/-- From the code: `apiRequest` of api.ts modelled on the outcome of its
single `fetch` call.  An abort (timeout) or network rejection becomes a
`TimeoutError`; a non-2xx response becomes an `ApiError` whose message is the
parsed body detail when present, otherwise the status text; a 2xx response is
returned as a value. -/
def apiRequest (o : FetchOutcome) : Except ApiFailure (Nat × String) :=
  match o with
  | .abortError => .error (.timeoutErr timeoutDefaultMsg)
  | .networkError => .error (.timeoutErr networkErrMsg)
  | .success status statusText jsonDetail =>
    if respOk status then .ok (status, statusText)
    else .error (.apiErr status statusText
      (match jsonDetail with | some d => d | none => statusText))

/-- From the code: what apiRequest does when offered a sequence of would-be
fetch outcomes for successive attempts — it performs exactly one fetch, so
only the first outcome is ever consulted (there is no retry loop in
api.ts). -/
def apiRequestWithAttempts (os : List FetchOutcome) : Except ApiFailure (Nat × String) :=
  apiRequest (os.headD .networkError)

/-! ## Frontend ChatWidget session handling
(src/frontend/src/components/ChatWidget/index.tsx) -/

/-- From the code: the part of a query response that `sendMessage` consults
for session tracking. -/
structure ChatQueryResponse where
  answer : String
  session_id : String
deriving DecidableEq

/-- From the code: ChatWidget state touched by `sendMessage` and
`clearChat`. -/
structure ChatState where
  messages : List String
  sessionId : Option String
  errorText : Option String
deriving DecidableEq

/-- From the code: the session-id update of `sendMessage` — on a failed
request the stored id is unchanged; on a success,
`if (data.session_id && !sessionId) setSessionId(data.session_id)` stores the
response id only when it is non-empty (truthy) and no id is stored yet. -/
def stepSession (sid : Option String) (res : Option ChatQueryResponse) : Option String :=
  match res with
  | none => sid
  | some d => if d.session_id ≠ "" ∧ sid = none then some d.session_id else sid

/-- From the code: the stored session id after a sequence of request results
(`none` = failed request, `some d` = successful response `d`). -/
def runSession (sid : Option String) (results : List (Option ChatQueryResponse)) :
    Option String :=
  results.foldl stepSession sid

/-- From the code: `clearChat` resets messages, session id and error. -/
def clearChat (_st : ChatState) : ChatState :=
  { messages := [], sessionId := none, errorText := none }

/-- The first successful response in a sequence of request results. -/
def firstSuccess (results : List (Option ChatQueryResponse)) : Option ChatQueryResponse :=
  results.findSome? id

/-- The first successful response carrying a non-empty session id. -/
def firstKeyedSuccess (results : List (Option ChatQueryResponse)) :
    Option ChatQueryResponse :=
  results.findSome? (fun r =>
    match r with
    | some d => if d.session_id ≠ "" then some d else none
    | none => none)

/-- Used in witnesses: a synthesizer stub. -/
def synthZero : List Candidate → SynthResult :=
  fun _ => { answer_text := "", used_chunk_ids := [] }

/-- Used in witnesses: a concrete chunk. -/
def sampleChunk : Chunk :=
  { id := "s:sec:0", source_id := "s", section_id := "sec", language := "en",
    ordinal := 0, text := "Robots.".toList, char_start := 0, char_end := 7 }

/-- Used in witnesses: a concrete retrieval candidate. -/
def sampleCandidate : Candidate := { chunk := sampleChunk, score := 9 }

/-- Used in witnesses: the citation the mapper emits for `sampleCandidate`. -/
def sampleCitation : Citation :=
  { source_id := "s", section_id := "sec", snippet := "Robots.".toList,
    relevance_score := 9 }

/-! ## Helper lemmas -/

theorem flatten_splitSentencesAux (l : List Char) :
    ∀ acc, (splitSentencesAux acc l).flatten = acc.reverse ++ l := by
  induction l with
  | nil =>
    intro acc
    by_cases h : acc.isEmpty
    · simp [splitSentencesAux, h, List.isEmpty_iff.mp h]
    · simp [splitSentencesAux, h]
  | cons c rest ih =>
    intro acc
    by_cases h : isTerminator c
    · simp [splitSentencesAux, h, ih]
    · simp [splitSentencesAux, h, ih]

theorem flatten_splitSentences (doc : List Char) :
    (splitSentences doc).flatten = doc := by
  simpa using flatten_splitSentencesAux doc []

theorem splitSentences_eq_nil (doc : List Char) (h : splitSentences doc = []) :
    doc = [] := by
  have := flatten_splitSentences doc
  rw [h] at this
  simpa using this.symm

theorem chunkLoop_flatten (T : Nat) (l : List (List Char)) :
    ∀ cur, (chunkLoop T cur l).flatten = cur ++ l := by
  induction l with
  | nil =>
    intro cur
    by_cases h : cur.isEmpty
    · simp [chunkLoop, h, List.isEmpty_iff.mp h]
    · simp [chunkLoop, h]
  | cons s rest ih =>
    intro cur
    by_cases h : cur.isEmpty
    · simp [chunkLoop, h, ih, List.isEmpty_iff.mp h]
    · by_cases h2 : sentencesLen cur + s.length ≤ T
      · simp [chunkLoop, h, h2, ih]
      · simp [chunkLoop, h, h2, ih]

theorem chunkLoop_eq_nil (T : Nat) (cur l : List (List Char))
    (h : chunkLoop T cur l = []) : cur = [] ∧ l = [] := by
  have := chunkLoop_flatten T l cur
  rw [h] at this
  exact List.append_eq_nil.mp this.symm

theorem chunkLoop_good (T : Nat) (l : List (List Char)) :
    ∀ cur, (cur = [] ∨ sentencesLen cur ≤ T ∨ cur.length = 1) →
      ∀ g ∈ chunkLoop T cur l, g ≠ [] ∧ (sentencesLen g ≤ T ∨ g.length = 1) := by
  induction l with
  | nil =>
    intro cur hcur g hg
    by_cases h : cur.isEmpty
    · simp [chunkLoop, h] at hg
    · simp [chunkLoop, h] at hg
      subst hg
      refine ⟨fun hc => h (List.isEmpty_iff.mpr hc), ?_⟩
      rcases hcur with hc | hc
      · exact absurd (List.isEmpty_iff.mpr hc) h
      · exact hc
  | cons s rest ih =>
    intro cur hcur g hg
    by_cases h : cur.isEmpty
    · rw [chunkLoop] at hg
      simp only [h, if_true] at hg
      exact ih [s] (Or.inr (Or.inr rfl)) g hg
    · by_cases h2 : sentencesLen cur + s.length ≤ T
      · rw [chunkLoop] at hg
        simp only [h, if_false, h2, if_true] at hg
        exact ih (cur ++ [s]) (Or.inr (Or.inl (by simpa [sentencesLen] using h2))) g hg
      · rw [chunkLoop, if_neg h, if_neg h2] at hg
        rcases List.mem_cons.mp hg with hg | hg
        · subst hg
          refine ⟨fun hc => h (List.isEmpty_iff.mpr hc), ?_⟩
          rcases hcur with hc | hc
          · exact absurd (List.isEmpty_iff.mpr hc) h
          · exact hc
        · exact ih [s] (Or.inr (Or.inr rfl)) g hg

theorem attachMeta_texts (sid sec lang : String) (ts : List (List Char)) :
    ∀ ord pos, (attachMeta sid sec lang ord pos ts).map Chunk.text = ts := by
  induction ts with
  | nil => intro ord pos; simp [attachMeta]
  | cons t ts ih => intro ord pos; simp [attachMeta, ih]

theorem attachMeta_ordinal_ge (sid sec lang : String) (ts : List (List Char)) :
    ∀ ord pos c, c ∈ attachMeta sid sec lang ord pos ts → ord ≤ c.ordinal := by
  induction ts with
  | nil => intro ord pos c hc; simp [attachMeta] at hc
  | cons t ts ih =>
    intro ord pos c hc
    simp only [attachMeta, List.mem_cons] at hc
    rcases hc with hc | hc
    · subst hc; exact le_refl _
    · exact le_trans (Nat.le_succ ord) (ih (ord + 1) (pos + t.length) c hc)

theorem attachMeta_ordinal_pairwise (sid sec lang : String) (ts : List (List Char)) :
    ∀ ord pos, List.Pairwise (fun a b => a.ordinal < b.ordinal)
      (attachMeta sid sec lang ord pos ts) := by
  induction ts with
  | nil => intro ord pos; simp [attachMeta]
  | cons t ts ih =>
    intro ord pos
    simp only [attachMeta]
    refine List.Pairwise.cons ?_ (ih (ord + 1) (pos + t.length))
    intro c hc
    have := attachMeta_ordinal_ge sid sec lang ts (ord + 1) (pos + t.length) c hc
    simpa using Nat.lt_of_lt_of_le (Nat.lt_succ_self ord) this

theorem attachMeta_keys (sid sec lang : String) (ts : List (List Char)) :
    ∀ ord pos c, c ∈ attachMeta sid sec lang ord pos ts →
      c.source_id = sid ∧ c.section_id = sec := by
  induction ts with
  | nil => intro ord pos c hc; simp [attachMeta] at hc
  | cons t ts ih =>
    intro ord pos c hc
    simp only [attachMeta, List.mem_cons] at hc
    rcases hc with hc | hc
    · subst hc; exact ⟨rfl, rfl⟩
    · exact ih (ord + 1) (pos + t.length) c hc

/-! ## Claim theorems: Content Segmenter -/

/-- C4: every chunk emitted by the Content Segmenter is the concatenation of
a non-empty contiguous run of whole sentences of the document (so no chunk's
text ends mid-sentence), the runs exactly cover the document's sentence
sequence in order, and every run either fits the size budget `T` or is a
single (oversized) sentence emitted whole. -/
theorem segmenter_sentence_integrity (sid sec lang : String) (T : Nat)
    (doc : List Char) (cs : List Chunk)
    (h : segmentDocument sid sec lang T doc = .ok cs) :
    ∃ groups : List (List (List Char)),
      cs.map Chunk.text = groups.map List.flatten ∧
      groups.flatten = splitSentences doc ∧
      (∀ g ∈ groups, g ≠ [] ∧ (sentencesLen g ≤ T ∨ g.length = 1)) ∧
      (cs.map Chunk.text).flatten = doc := by
  by_cases hd : doc.isEmpty
  · simp [segmentDocument, hd] at h
  · unfold segmentDocument at h
    rw [if_neg hd] at h
    have h2 : attachMeta sid sec lang 0 0 (segmentTexts T doc) = cs :=
      Except.ok.inj h
    refine ⟨chunkSentences T (splitSentences doc), ?_, ?_, ?_, ?_⟩
    · rw [← h2]
      exact attachMeta_texts sid sec lang (segmentTexts T doc) 0 0
    · exact chunkLoop_flatten T (splitSentences doc) []
    · exact chunkLoop_good T (splitSentences doc) [] (Or.inl rfl)
    · rw [← h2, attachMeta_texts sid sec lang (segmentTexts T doc) 0 0]
      unfold segmentTexts chunkSentences
      rw [List.flatten_flatten.symm]
      rw [chunkLoop_flatten T (splitSentences doc) []]
      simpa using flatten_splitSentences doc

/-- C4 witness: the theorem applied to a concrete two-sentence document with
a small size budget. -/
theorem segmenter_sentence_integrity_witness :
    ∃ groups : List (List (List Char)),
      ([Chunk.mk "s:sec:0" "s" "sec" "en" 0 "ab.".toList 0 3,
        Chunk.mk "s:sec:1" "s" "sec" "en" 1 " cd.".toList 3 7].map Chunk.text)
        = groups.map List.flatten ∧
      groups.flatten = splitSentences "ab. cd.".toList ∧
      (∀ g ∈ groups, g ≠ [] ∧ (sentencesLen g ≤ 3 ∨ g.length = 1)) ∧
      (([Chunk.mk "s:sec:0" "s" "sec" "en" 0 "ab.".toList 0 3,
         Chunk.mk "s:sec:1" "s" "sec" "en" 1 " cd.".toList 3 7].map Chunk.text).flatten
        = "ab. cd.".toList) :=
  segmenter_sentence_integrity "s" "sec" "en" 3 "ab. cd.".toList
    [Chunk.mk "s:sec:0" "s" "sec" "en" 0 "ab.".toList 0 3,
     Chunk.mk "s:sec:1" "s" "sec" "en" 1 " cd.".toList 3 7] rfl

/-- C5: within one segmentation call (one `(source_id, section_id)` group)
the chunk ordinals are strictly increasing in emission order, and all chunks
carry that `source_id` and `section_id`. -/
theorem segmenter_ordinal_increasing (sid sec lang : String) (T : Nat)
    (doc : List Char) (cs : List Chunk)
    (h : segmentDocument sid sec lang T doc = .ok cs) :
    List.Pairwise (fun a b => a.ordinal < b.ordinal) cs ∧
      ∀ c ∈ cs, c.source_id = sid ∧ c.section_id = sec := by
  by_cases hd : doc.isEmpty
  · simp [segmentDocument, hd] at h
  · unfold segmentDocument at h
    rw [if_neg hd] at h
    rw [← Except.ok.inj h]
    exact ⟨attachMeta_ordinal_pairwise sid sec lang (segmentTexts T doc) 0 0,
      fun c hc => attachMeta_keys sid sec lang (segmentTexts T doc) 0 0 c hc⟩

/-- C5 witness: the theorem applied to a concrete document producing two
chunks with ordinals 0 and 1. -/
theorem segmenter_ordinal_increasing_witness :
    List.Pairwise (fun a b => a.ordinal < b.ordinal)
      [Chunk.mk "s:sec:0" "s" "sec" "en" 0 "ab.".toList 0 3,
       Chunk.mk "s:sec:1" "s" "sec" "en" 1 " cd.".toList 3 7] ∧
      ∀ c ∈ [Chunk.mk "s:sec:0" "s" "sec" "en" 0 "ab.".toList 0 3,
             Chunk.mk "s:sec:1" "s" "sec" "en" 1 " cd.".toList 3 7],
        c.source_id = "s" ∧ c.section_id = "sec" :=
  segmenter_ordinal_increasing "s" "sec" "en" 3 "ab. cd.".toList
    [Chunk.mk "s:sec:0" "s" "sec" "en" 0 "ab.".toList 0 3,
     Chunk.mk "s:sec:1" "s" "sec" "en" 1 " cd.".toList 3 7] rfl

/-- C7: the Content Segmenter fails with `ContentError` exactly on empty
input, and on every non-empty input it returns a non-empty chunk sequence
(worst case a single oversized chunk). -/
theorem segmenter_error_iff (sid sec lang : String) (T : Nat) (doc : List Char) :
    ((∃ e, segmentDocument sid sec lang T doc = .error e) ↔ doc = []) ∧
      (doc ≠ [] → ∃ cs, segmentDocument sid sec lang T doc = .ok cs ∧ cs ≠ []) := by
  constructor
  · constructor
    · rintro ⟨e, he⟩
      by_cases hd : doc.isEmpty
      · exact List.isEmpty_iff.mp hd
      · simp [segmentDocument, hd] at he
    · intro hd
      exact ⟨.emptyInput, by simp [segmentDocument, hd]⟩
  · intro hd
    have hd' : doc.isEmpty = false := by
      simpa using List.isEmpty_iff.not.mpr hd
    refine ⟨attachMeta sid sec lang 0 0 (segmentTexts T doc),
      by simp [segmentDocument, hd'], ?_⟩
    intro hnil
    have htexts : segmentTexts T doc = [] := by
      have := attachMeta_texts sid sec lang (segmentTexts T doc) 0 0
      rw [hnil] at this
      simpa using this.symm
    have hchunks : chunkSentences T (splitSentences doc) = [] := by
      unfold segmentTexts at htexts
      simpa using htexts
    have hsent : splitSentences doc = [] :=
      (chunkLoop_eq_nil T [] (splitSentences doc) hchunks).2
    exact hd (splitSentences_eq_nil doc hsent)

/-- C7 witness: the theorem's non-empty branch applied to a concrete
document. -/
theorem segmenter_error_iff_witness :
    ("ab. cd.".toList : List Char) ≠ [] ∧
      ∃ cs, segmentDocument "s" "sec" "en" 3 "ab. cd.".toList = .ok cs ∧ cs ≠ [] :=
  ⟨by decide, (segmenter_error_iff "s" "sec" "en" 3 "ab. cd.".toList).2 (by decide)⟩

/-- C8: ingestion is idempotent on unchanged input — re-ingesting the same
document leaves the ingestion state unchanged, so the stored chunks for that
source have the same count and identical texts as after the first
ingestion. -/
theorem ingest_idempotent (st : IngestState) (sid sec lang : String) (T : Nat)
    (doc : List Char) :
    ingest (ingest st sid sec lang T doc) sid sec lang T doc
        = ingest st sid sec lang T doc ∧
      (chunksOf (ingest (ingest st sid sec lang T doc) sid sec lang T doc) sid).length
        = (chunksOf (ingest st sid sec lang T doc) sid).length ∧
      (chunksOf (ingest (ingest st sid sec lang T doc) sid sec lang T doc) sid).map
          Chunk.text
        = (chunksOf (ingest st sid sec lang T doc) sid).map Chunk.text := by
  have hmain : ingest (ingest st sid sec lang T doc) sid sec lang T doc
      = ingest st sid sec lang T doc := by
    unfold ingest
    cases hseg : segmentDocument sid sec lang T doc with
    | error e => rfl
    | ok cs =>
      simp only
      congr 1
      simp [List.filter_cons, List.filter_filter]
  exact ⟨hmain, by rw [hmain], by rw [hmain]⟩

/-! ## Claim theorems: Retrieval Orchestrator -/

theorem pickBest_mem (hs : List Hit) : ∀ h, pickBest h hs ∈ h :: hs := by
  induction hs with
  | nil => intro h; simp [pickBest]
  | cons x xs ih =>
    intro h
    have hstep : pickBest h (x :: xs) = pickBest (if rankLtB x h then x else h) xs := rfl
    rw [hstep]
    rcases List.mem_cons.mp (ih (if rankLtB x h then x else h)) with he | he
    · rw [he]
      by_cases hb : rankLtB x h
      · simp [hb]
      · simp [hb]
    · exact List.mem_cons_of_mem _ (List.mem_cons_of_mem _ he)

theorem score_le_prefer (x h : Hit) :
    h.score ≤ (if rankLtB x h then x else h).score ∧
      x.score ≤ (if rankLtB x h then x else h).score := by
  by_cases hb : rankLtB x h = true
  · rw [if_pos hb]
    unfold rankLtB at hb
    simp only [Bool.or_eq_true, Bool.and_eq_true, decide_eq_true_eq] at hb
    rcases hb with hb | ⟨hb, _⟩
    · exact ⟨le_of_lt hb, le_refl _⟩
    · exact ⟨le_of_eq hb.symm, le_refl _⟩
  · rw [if_neg hb]
    refine ⟨le_refl _, ?_⟩
    unfold rankLtB at hb
    simp only [Bool.or_eq_true, Bool.and_eq_true, decide_eq_true_eq, not_or] at hb
    exact le_of_not_lt hb.1

theorem pickBest_score (hs : List Hit) :
    ∀ h x, x ∈ h :: hs → x.score ≤ (pickBest h hs).score := by
  induction hs with
  | nil =>
    intro h x hx
    rw [List.mem_singleton.mp hx]
    simp [pickBest]
  | cons x xs ih =>
    intro h y hy
    have hstep : pickBest h (x :: xs) = pickBest (if rankLtB x h then x else h) xs := rfl
    rw [hstep]
    have hacc : ((if rankLtB x h then x else h)).score
        ≤ (pickBest (if rankLtB x h then x else h) xs).score :=
      ih (if rankLtB x h then x else h) _ (List.mem_cons_self _ _)
    rcases List.mem_cons.mp hy with he | he
    · exact le_trans (he ▸ (score_le_prefer x h).1) hacc
    · rcases List.mem_cons.mp he with he2 | he2
      · exact le_trans (he2 ▸ (score_le_prefer x h).2) hacc
      · exact ih (if rankLtB x h then x else h) y (List.mem_cons_of_mem _ he2)

theorem bestForKey_spec (hits : List Hit) (k : String × String) (c : Hit)
    (h : bestForKey hits k = some c) :
    c ∈ hits ∧ hitKey c = k ∧ ∀ x ∈ hits, hitKey x = k → x.score ≤ c.score := by
  unfold bestForKey at h
  cases hf : List.filter (fun h => decide (hitKey h = k)) hits with
  | nil => rw [hf] at h; exact absurd h (by simp)
  | cons b bs =>
    rw [hf] at h
    have hc : c = pickBest b bs := (Option.some.inj h).symm
    have hmem : c ∈ b :: bs := hc ▸ pickBest_mem bs b
    have hmemf : c ∈ List.filter (fun h => decide (hitKey h = k)) hits := by
      rw [hf]; exact hmem
    refine ⟨List.mem_of_mem_filter hmemf, ?_, ?_⟩
    · simpa using List.of_mem_filter hmemf
    · intro x hx hkx
      have hxf : x ∈ List.filter (fun h => decide (hitKey h = k)) hits :=
        List.mem_filter.mpr ⟨hx, by simp [hkx]⟩
      rw [hf] at hxf
      exact hc ▸ pickBest_score bs b x hxf

theorem filterMap_bestForKey_key_mem (hits : List Hit)
    (ks : List (String × String)) (c : Hit)
    (h : c ∈ ks.filterMap (bestForKey hits)) : hitKey c ∈ ks := by
  rcases List.mem_filterMap.mp h with ⟨k, hk, hbk⟩
  rw [(bestForKey_spec hits k c hbk).2.1]
  exact hk

theorem nodup_key_filterMap (hits : List Hit) :
    ∀ ks : List (String × String), ks.Nodup →
      ((ks.filterMap (bestForKey hits)).map hitKey).Nodup := by
  intro ks
  induction ks with
  | nil => intro _; simp
  | cons k ks ih =>
    intro hnd
    rw [List.filterMap_cons]
    cases hbk : bestForKey hits k with
    | none => exact ih (List.Nodup.of_cons hnd)
    | some c =>
      simp only [List.map_cons]
      refine List.nodup_cons.mpr ⟨?_, ih (List.Nodup.of_cons hnd)⟩
      intro hmem
      rcases List.mem_map.mp hmem with ⟨c2, hc2, hkeq⟩
      have hkc2 : hitKey c2 ∈ ks := filterMap_bestForKey_key_mem hits ks c2 hc2
      have hkc : hitKey c = k := (bestForKey_spec hits k c hbk).2.1
      rw [hkeq, hkc] at hkc2
      exact (List.nodup_cons.mp hnd).1 hkc2

theorem dedupeHits_spec (hits : List Hit) (c : Hit) (h : c ∈ dedupeHits hits) :
    c ∈ hits ∧ ∀ x ∈ hits, hitKey x = hitKey c → x.score ≤ c.score := by
  rcases List.mem_filterMap.mp h with ⟨k, _, hbk⟩
  obtain ⟨h1, h2, h3⟩ := bestForKey_spec hits k c hbk
  exact ⟨h1, fun x hx hkx => h3 x hx (by rw [hkx, h2])⟩

theorem dedupeHits_nodup (hits : List Hit) :
    ((dedupeHits hits).map hitKey).Nodup :=
  nodup_key_filterMap hits _ (List.nodup_dedup _)

/-- C6: for every search-result list, the Retrieval Orchestrator output has at
most `k` entries, no two entries share a `(source_id, section_id)` key, every
entry is an input hit whose score is maximal among input hits with its key
(deduplication keeps only the highest-scoring one), and the output is ordered
by the deterministic ranking: higher score first, ties by lower ordinal then
lexicographically lower source_id. -/
theorem orchestrator_dedup_rank (k : Nat) (hits : List Hit) :
    (orchestrate k hits).length ≤ k ∧
      ((orchestrate k hits).map hitKey).Nodup ∧
      (∀ c ∈ orchestrate k hits,
        c ∈ hits ∧ ∀ x ∈ hits, hitKey x = hitKey c → x.score ≤ c.score) ∧
      (orchestrate k hits).Pairwise rankLe := by
  refine ⟨List.length_take_le _ _, ?_, ?_, ?_⟩
  · rw [orchestrate, List.map_take]
    refine List.Nodup.sublist (List.take_sublist _ _) ?_
    have hperm := (List.perm_insertionSort rankLe (dedupeHits hits)).map hitKey
    exact hperm.nodup_iff.mpr (dedupeHits_nodup hits)
  · intro c hc
    have h1 : c ∈ List.insertionSort rankLe (dedupeHits hits) :=
      List.mem_of_mem_take hc
    exact dedupeHits_spec hits c ((List.mem_insertionSort rankLe).mp h1)
  · exact List.Pairwise.sublist (List.take_sublist _ _)
      (List.sorted_insertionSort rankLe (dedupeHits hits))

/-- C6 witness: on a concrete hit list, the winning hit of a duplicated key is
in the output and dominates the score of the losing hit with the same key. -/
theorem orchestrator_dedup_rank_witness :
    (Hit.mk "a" "x" 1 7) ∈ orchestrate 2 [Hit.mk "a" "x" 0 5, Hit.mk "a" "x" 1 7, Hit.mk "b" "y" 0 7] ∧
      (Hit.mk "a" "x" 1 7) ∈ [Hit.mk "a" "x" 0 5, Hit.mk "a" "x" 1 7, Hit.mk "b" "y" 0 7] ∧
      (Hit.mk "a" "x" 0 5).score ≤ (Hit.mk "a" "x" 1 7).score := by
  have hmem : (Hit.mk "a" "x" 1 7)
      ∈ orchestrate 2 [Hit.mk "a" "x" 0 5, Hit.mk "a" "x" 1 7, Hit.mk "b" "y" 0 7] := by
    decide
  obtain ⟨hin, hdom⟩ :=
    (orchestrator_dedup_rank 2
      [Hit.mk "a" "x" 0 5, Hit.mk "a" "x" 1 7, Hit.mk "b" "y" 0 7]).2.2.1
      (Hit.mk "a" "x" 1 7) hmem
  exact ⟨hmem, hin, hdom (Hit.mk "a" "x" 0 5) (by decide) (by decide)⟩

/-! ## Claim theorems: Citation Mapper and scope gating -/

/-- C3: the Citation Mapper never emits more citations than used ids, and
every emitted citation is populated from a candidate whose chunk id occurs in
the used-id list — ids absent from the candidate set are dropped silently,
never fabricated into a citation. -/
theorem citation_mapper_closed_world (cands : List Candidate) (used : List String) :
    (mapCitations cands used).length ≤ used.length ∧
      ∀ cit ∈ mapCitations cands used, ∃ c, c ∈ cands ∧ c.chunk.id ∈ used ∧
        cit.source_id = c.chunk.source_id ∧ cit.section_id = c.chunk.section_id ∧
        cit.snippet = c.chunk.text.take snippetLen ∧ cit.relevance_score = c.score := by
  constructor
  · exact List.length_filterMap_le _ _
  · intro cit hcit
    rcases List.mem_filterMap.mp hcit with ⟨i, hi, hfi⟩
    cases hfind : List.find? (fun c => decide (c.chunk.id = i)) cands with
    | none => rw [hfind] at hfi; exact absurd hfi (by simp)
    | some c =>
      rw [hfind] at hfi
      have hpred : c.chunk.id = i := by
        simpa using List.find?_some hfind
      have hc : c ∈ cands := List.mem_of_find?_eq_some hfind
      refine ⟨c, hc, hpred ▸ hi, ?_⟩
      have := Option.some.inj hfi
      rw [← this]
      exact ⟨rfl, rfl, rfl, rfl⟩

/-- C3 witness: a concrete candidate set and a used-id list containing one
resolvable id and one unknown id. -/
theorem citation_mapper_closed_world_witness :
    (mapCitations [sampleCandidate] ["s:sec:0", "ghost"]).length ≤ 2 ∧
      (sampleCitation ∈ mapCitations [sampleCandidate] ["s:sec:0", "ghost"] ∧
        ∃ c, c ∈ [sampleCandidate] ∧ c.chunk.id ∈ ["s:sec:0", "ghost"] ∧
          sampleCitation.source_id = c.chunk.source_id ∧
          sampleCitation.section_id = c.chunk.section_id ∧
          sampleCitation.snippet = c.chunk.text.take snippetLen ∧
          sampleCitation.relevance_score = c.score) :=
  ⟨(citation_mapper_closed_world [sampleCandidate] ["s:sec:0", "ghost"]).1,
    by decide,
    (citation_mapper_closed_world [sampleCandidate] ["s:sec:0", "ghost"]).2
      sampleCitation (by decide)⟩

/-- C1: whenever the response is flagged out of scope, its citation list is
empty, its answer is exactly the fixed acknowledgment template, and the
response does not depend on the synthesizer at all (the Answer Synthesizer is
never invoked). -/
theorem scope_gate_bypass (synth : List Candidate → SynthResult) (tScope : Int)
    (sid : String) (cands : List Candidate)
    (h : (answerQuery synth tScope sid cands).is_out_of_scope = true) :
    (answerQuery synth tScope sid cands).citations = [] ∧
      (answerQuery synth tScope sid cands).answer = acknowledgmentTemplate ∧
      ∀ synth2, answerQuery synth2 tScope sid cands = answerQuery synth tScope sid cands := by
  by_cases hsc : outOfScope tScope cands
  · simp [answerQuery, hsc]
  · unfold answerQuery at h
    rw [if_neg hsc] at h
    simp at h

/-- C1 witness: the theorem applied to an empty candidate set, which the
Scope Classifier always flags out of scope. -/
theorem scope_gate_bypass_witness :
    (answerQuery synthZero 0 "sess" []).is_out_of_scope = true ∧
      (answerQuery synthZero 0 "sess" []).citations = [] ∧
      (answerQuery synthZero 0 "sess" []).answer = acknowledgmentTemplate :=
  ⟨rfl, (scope_gate_bypass synthZero 0 "sess" [] rfl).1,
    (scope_gate_bypass synthZero 0 "sess" [] rfl).2.1⟩

/-- C2 counterexample: the citation records of a query-entry-point response do
not have exactly the fields `source_id, section_id, snippet, relevance_score`
claimed by the specification — the frontend `Citation` interface consumed by
the ChatWidget has the fields `chapter_id, chapter_title, section_id,
section_title, text, relevance_score`. -/
theorem citation_field_mismatch : citationFields ≠ specCitationFields := by
  decide

/-- C2 amended: every citation in a query-entry-point response is a record
with exactly the fields `chapter_id, chapter_title, section_id, section_title,
text, relevance_score` (the spec's `source_id`/`snippet` appear on the wire as
`chapter_id`/`text`), and the snippet text of every citation emitted by the
Citation Mapper is a verbatim substring of the text of a chunk in the
retrieval candidate set. -/
theorem citation_shape_and_snippet :
    citationFields = ["chapter_id", "chapter_title", "section_id",
      "section_title", "text", "relevance_score"] ∧
      ∀ (cands : List Candidate) (used : List String),
        ∀ cit ∈ mapCitations cands used, ∃ c, c ∈ cands ∧
          cit.snippet <:+: c.chunk.text ∧
          cit.source_id = c.chunk.source_id ∧ cit.section_id = c.chunk.section_id := by
  refine ⟨rfl, ?_⟩
  intro cands used cit hcit
  obtain ⟨c, hc, _, hsrc, hsec, hsnip, _⟩ :=
    (citation_mapper_closed_world cands used).2 cit hcit
  refine ⟨c, hc, ?_, hsrc, hsec⟩
  rw [hsnip]
  exact (List.take_prefix snippetLen c.chunk.text).isInfix

/-- C2 witness: the amended theorem applied to a concrete candidate set and
used-id list. -/
theorem citation_shape_and_snippet_witness :
    sampleCitation ∈ mapCitations [sampleCandidate] ["s:sec:0"] ∧
      ∃ c, c ∈ [sampleCandidate] ∧ sampleCitation.snippet <:+: c.chunk.text ∧
        sampleCitation.source_id = c.chunk.source_id ∧
        sampleCitation.section_id = c.chunk.section_id :=
  ⟨by decide,
    citation_shape_and_snippet.2 [sampleCandidate] ["s:sec:0"] sampleCitation (by decide)⟩

/-! ## Claim theorems: frontend HTTP client and ChatWidget session handling -/

/-- C9 counterexample: the frontend HTTP client has no retry budget — when
its single fetch attempt fails with a network error it surfaces a
`TimeoutError` even though a second attempt would have returned a 2xx
success; no retry with backoff is ever made. -/
theorem http_client_no_retry :
    apiRequestWithAttempts [.networkError, .success 200 "OK" none]
        = .error (.timeoutErr networkErrMsg) ∧
      apiRequest (.success 200 "OK" none) = .ok (200, "OK") :=
  ⟨rfl, rfl⟩

/-- C9 amended: every call through the frontend HTTP client performs exactly
one fetch attempt governed by a positive bounded timeout (5000 ms); there is
no retry budget or backoff, and every failing outcome surfaces a typed
failure — `TimeoutError` on abort or network failure, `ApiError` on a
non-2xx status — never an indefinite block or a fabricated value. -/
theorem http_client_timeout_typed :
    (∀ os, apiRequestWithAttempts os = apiRequest (os.headD .networkError)) ∧
      (∀ o, (∃ v, apiRequest o = .ok v) ∨
        (∃ m, apiRequest o = .error (.timeoutErr m)) ∨
        (∃ s st m, apiRequest o = .error (.apiErr s st m))) ∧
      0 < API_TIMEOUT := by
  refine ⟨fun os => rfl, ?_, by decide⟩
  intro o
  cases o with
  | abortError => exact Or.inr (Or.inl ⟨timeoutDefaultMsg, rfl⟩)
  | networkError => exact Or.inr (Or.inl ⟨networkErrMsg, rfl⟩)
  | success status statusText jsonDetail =>
    by_cases hok : respOk status
    · exact Or.inl ⟨(status, statusText), by simp [apiRequest, hok]⟩
    · exact Or.inr (Or.inr ⟨status, statusText,
        (match jsonDetail with | some d => d | none => statusText),
        by simp [apiRequest, hok]⟩)

theorem runSession_some (s : String) (results : List (Option ChatQueryResponse)) :
    runSession (some s) results = some s := by
  induction results with
  | nil => rfl
  | cons r rs ih =>
    have hstep : stepSession (some s) r = some s := by
      cases r with
      | none => rfl
      | some d => simp [stepSession]
    show runSession (stepSession (some s) r) rs = some s
    rw [hstep]
    exact ih

/-- C10 counterexample: when the first successful response carries an empty
session_id the ChatWidget does not store it (the truthiness check fails), and
a later response's session_id is stored instead — so the stored id neither
stays equal to the first successful response's session_id nor is protected
from replacement by a later response. -/
theorem session_id_first_empty :
    runSession none
        [some (ChatQueryResponse.mk "a1" ""), some (ChatQueryResponse.mk "a2" "s2")]
        = some "s2" ∧
      (firstSuccess
          [some (ChatQueryResponse.mk "a1" ""), some (ChatQueryResponse.mk "a2" "s2")]).map
          ChatQueryResponse.session_id = some "" ∧
      (some "s2" : Option String) ≠ some "" := by
  refine ⟨by decide, by decide, by decide⟩

/-- C10 amended: the stored session id is null until the first successful
response carrying a non-empty session_id; from then on it equals that
response's session_id and is never replaced by any later response; and
clearChat resets the stored session id to null. -/
theorem session_id_tracking :
    (∀ results, runSession none results
        = (firstKeyedSuccess results).map ChatQueryResponse.session_id) ∧
      (∀ s results, runSession (some s) results = some s) ∧
      (∀ st, (clearChat st).sessionId = none) := by
  refine ⟨?_, runSession_some, fun _ => rfl⟩
  intro results
  induction results with
  | nil => rfl
  | cons r rs ih =>
    cases r with
    | none =>
      show runSession (stepSession none none) rs = _
      rw [show stepSession none none = none from rfl, ih]
      rfl
    | some d =>
      by_cases hid : d.session_id = ""
      · show runSession (stepSession none (some d)) rs = _
        have h1 : stepSession none (some d) = none := by simp [stepSession, hid]
        rw [h1, ih]
        have h2 : firstKeyedSuccess (some d :: rs) = firstKeyedSuccess rs := by
          simp [firstKeyedSuccess, hid]
        rw [h2]
      · show runSession (stepSession none (some d)) rs = _
        have h1 : stepSession none (some d) = some d.session_id := by
          simp [stepSession, hid]
        rw [h1, runSession_some]
        have h2 : firstKeyedSuccess (some d :: rs) = some d := by
          simp [firstKeyedSuccess, hid]
        rw [h2]
        rfl

end Rag
